import Mathlib

/-!
# N-body step: force accumulation, integration, structure-of-arrays transcoding

A shallow embedding of `src/src/NBody.cpp` (`compute_forces`, `integrate_bodies`,
`runCpuComputation`), of `Body` and `BodiesSOA` from `src/include/Body.h`, and of
the host-side pack and unpack loops of `runGpuComputation` in
`src/src/GpuComputation.cpp`.

Scalars. The C++ `float` fields are read as elements of a linearly ordered field
`F` (exact arithmetic, no rounding); the theorems that speak about the square
root take `F = ℝ` with `Real.sqrt`. The square root is a parameter `sqrtF` of the
force loop so that the definitions stay executable over `ℚ`.

Integers. `width` and `height` are C++ `int`; they are read as `Int`, and the C++
quotient `/` on `int` (truncation toward zero) is `Int.tdiv`. The only `int`
input on which the C++ expression `-width/2` is not defined is the least `int`
(its negation overflows); every other `int` is covered by the `Int` reading.

Vectors. `std::vector<Body>` is a `List`, element access by reference is
`l[i]?` followed by `List.set`.

Division. The only division of the code is `1 / sqrt(dx² + dy² + eps²)` in
`compute_forces`. It is evaluated only for a pair that `operator==` does not
skip, hence with `dx` or `dy` non-zero and a positive argument of the square
root, so over `ℝ` with `Real.sqrt` the divisor is never zero.
-/

namespace NBody

/-! ## The program -/

/-- The record `Body` of `Body.h`, lines 12-28. -/
structure Body (F : Type) where
  x : F
  y : F
  velocity_x : F
  velocity_y : F
  acceleration_x : F
  acceleration_y : F
  mass : F
deriving DecidableEq, Repr

variable {F : Type} [LinearOrderedField F]

/-- `Body::operator==` (`Body.h`, lines 24-27): equality of the two positions. -/
def Body.op_eq (a b : Body F) : Bool :=
  decide (a.x = b.x ∧ a.y = b.y)

/-- First loop of `compute_forces` (lines 17-21), one iteration. -/
def clear_acceleration (b : Body F) : Body F :=
  { b with acceleration_x := 0, acceleration_y := 0 }

/-- Body of the inner loop of `compute_forces` (lines 28-42): what one
`other_body` does to `current_body`. -/
def interact (sqrtF : F → F) (G eps : F) (current_body other_body : Body F) : Body F :=
  if current_body.op_eq other_body then current_body
  else
    let dx := other_body.x - current_body.x
    let dy := other_body.y - current_body.y
    let inv_distance_cubed := (1 / sqrtF (dx ^ 2 + dy ^ 2 + eps ^ 2)) ^ 3
    let force := G * other_body.mass * inv_distance_cubed
    { current_body with
      acceleration_x := current_body.acceleration_x + dx * force
      acceleration_y := current_body.acceleration_y + dy * force }

/-- One iteration of the inner loop on the vector: `current_body` is the element
at index `i`, `other_body` the element at index `j`, both read from the vector
as it is at that moment; only the element at `i` is written. -/
def forces_pair (sqrtF : F → F) (G eps : F) (i : Nat) (bodies : List (Body F)) (j : Nat) :
    List (Body F) :=
  match bodies[i]?, bodies[j]? with
  | some current_body, some other_body =>
      bodies.set i (interact sqrtF G eps current_body other_body)
  | _, _ => bodies

/-- The inner loop of `compute_forces` (lines 26-43) for the body at index `i`. -/
def forces_row (sqrtF : F → F) (G eps : F) (bodies : List (Body F)) (i : Nat) :
    List (Body F) :=
  (List.range bodies.length).foldl (forces_pair sqrtF G eps i) bodies

/-- `compute_forces` (`NBody.cpp`, lines 15-45): clear every acceleration, then
run the inner loop for every index in order, on the vector in place. -/
def compute_forces (sqrtF : F → F) (G eps : F) (bodies : List (Body F)) : List (Body F) :=
  let cleared := bodies.map clear_acceleration
  (List.range cleared.length).foldl (forces_row sqrtF G eps) cleared

/-- Lines 64-65 (and 68-69) of `integrate_bodies`: the wrap of one coordinate
`p` for the `int` extent `extent`. The thresholds are the C++ `int` expressions
`-extent/2` and `extent/2`, converted to the scalar type for the comparison. -/
def wrap_axis (p : F) (extent : Int) : F :=
  if p < ((Int.tdiv (-extent) 2 : Int) : F) then p + (extent : F)
  else if p > ((Int.tdiv extent 2 : Int) : F) then p - (extent : F)
  else p

/-- Body of the loop of `integrate_bodies` (lines 52-69). -/
def integrate_body (dt : F) (width height : Int) (current_body : Body F) : Body F :=
  if current_body.mass ≥ 1000 then current_body
  else
    let velocity_x := current_body.velocity_x + current_body.acceleration_x * dt
    let velocity_y := current_body.velocity_y + current_body.acceleration_y * dt
    let x := current_body.x + velocity_x * dt
    let y := current_body.y + velocity_y * dt
    { current_body with
      velocity_x := velocity_x
      velocity_y := velocity_y
      x := wrap_axis x width
      y := wrap_axis y height }

/-- `integrate_bodies` (`NBody.cpp`, lines 48-71): each iteration reads and
writes its own element only. -/
def integrate_bodies (dt : F) (width height : Int) (bodies : List (Body F)) :
    List (Body F) :=
  bodies.map (integrate_body dt width height)

/-- `runCpuComputation` (`NBody.cpp`, lines 74-78). -/
def runCpuComputation (sqrtF : F → F) (G eps dt : F) (width height : Int)
    (bodies : List (Body F)) : List (Body F) :=
  integrate_bodies dt width height (compute_forces sqrtF G eps bodies)

/-- `n` successive calls of `runCpuComputation` on the same vector. -/
def runCpuSteps (sqrtF : F → F) (G eps dt : F) (width height : Int) :
    Nat → List (Body F) → List (Body F)
  | 0, bodies => bodies
  | n + 1, bodies =>
      runCpuSteps sqrtF G eps dt width height n
        (runCpuComputation sqrtF G eps dt width height bodies)

/-- The record `BodiesSOA` of `Body.h`, lines 31-48. -/
structure BodiesSOA (F : Type) where
  x : List F
  y : List F
  vx : List F
  vy : List F
  ax : List F
  ay : List F
  mass : List F
  size : Nat
deriving DecidableEq, Repr

/-- The constructor `BodiesSOA(size_t n)` (`Body.h`, lines 46-47): seven vectors
of `n` value-initialised (zero) floats. -/
def BodiesSOA.init (n : Nat) : BodiesSOA F :=
  { x := List.replicate n 0, y := List.replicate n 0,
    vx := List.replicate n 0, vy := List.replicate n 0,
    ax := List.replicate n 0, ay := List.replicate n 0,
    mass := List.replicate n 0, size := n }

/-- One iteration of the pack loop of `runGpuComputation` (lines 85-91). An
index outside `bodies` (undefined in C++) leaves the batch as it is. -/
def pack_step (bodies : List (Body F)) (soa : BodiesSOA F) (i : Nat) : BodiesSOA F :=
  match bodies[i]? with
  | some b =>
      { soa with
        x := soa.x.set i b.x
        y := soa.y.set i b.y
        vx := soa.vx.set i b.velocity_x
        vy := soa.vy.set i b.velocity_y
        ax := soa.ax.set i 0
        ay := soa.ay.set i 0
        mass := soa.mass.set i b.mass }
  | none => soa

/-- The pack loop of `runGpuComputation` (lines 83-92) for the body count `s_n`. -/
def pack_soa (s_n : Nat) (bodies : List (Body F)) : BodiesSOA F :=
  (List.range s_n).foldl (pack_step bodies) (BodiesSOA.init s_n)

/-- One iteration of the unpack loop of `runGpuComputation` (lines 139-144):
position, velocity and acceleration are written, mass is not. An index outside
the vectors (undefined in C++) leaves `bodies` as it is. -/
def unpack_step (soa : BodiesSOA F) (bodies : List (Body F)) (i : Nat) : List (Body F) :=
  match bodies[i]?, soa.x[i]?, soa.y[i]?, soa.vx[i]?, soa.vy[i]?, soa.ax[i]?, soa.ay[i]? with
  | some b, some x, some y, some vx, some vy, some ax, some ay =>
      bodies.set i
        { b with
          x := x, y := y, velocity_x := vx, velocity_y := vy
          acceleration_x := ax, acceleration_y := ay }
  | _, _, _, _, _, _, _ => bodies

/-- The unpack loop of `runGpuComputation` (lines 138-145) for the body count `s_n`. -/
def unpack_soa (s_n : Nat) (soa : BodiesSOA F) (bodies : List (Body F)) : List (Body F) :=
  (List.range s_n).foldl (unpack_step soa) bodies

/-! ## Quantities used to state the properties, and sample inputs -/

/-- The x component that one pass of the inner loop body adds to the
acceleration of a body at `(px, py)` for `other_body`: zero when the pair is
skipped by `operator==`, `dx * force` otherwise. -/
def pull_x (sqrtF : F → F) (G eps px py : F) (other_body : Body F) : F :=
  if px = other_body.x ∧ py = other_body.y then 0
  else (other_body.x - px) *
    (G * other_body.mass *
      (1 / sqrtF ((other_body.x - px) ^ 2 + (other_body.y - py) ^ 2 + eps ^ 2)) ^ 3)

/-- The y component that one pass of the inner loop body adds to the
acceleration of a body at `(px, py)` for `other_body`. -/
def pull_y (sqrtF : F → F) (G eps px py : F) (other_body : Body F) : F :=
  if px = other_body.x ∧ py = other_body.y then 0
  else (other_body.y - py) *
    (G * other_body.mass *
      (1 / sqrtF ((other_body.x - px) ^ 2 + (other_body.y - py) ^ 2 + eps ^ 2)) ^ 3)

/-- The state of `current_body` once its inner loop over `bodies` is over. -/
def row_result (sqrtF : F → F) (G eps : F) (bodies : List (Body F)) (b : Body F) : Body F :=
  { b with
    acceleration_x := b.acceleration_x + (bodies.map (pull_x sqrtF G eps b.x b.y)).sum
    acceleration_y := b.acceleration_y + (bodies.map (pull_y sqrtF G eps b.x b.y)).sum }

/-- Euclidean length of the acceleration of a body. -/
def acceleration_magnitude (sqrtF : F → F) (b : Body F) : F :=
  sqrtF (b.acceleration_x ^ 2 + b.acceleration_y ^ 2)

/-- A light body at `(3, 4)` moving right. -/
def light_body : Body F := ⟨3, 4, 1, 0, 0, 0, 2⟩

/-- A body of mass `1000` at rest at the origin, as `centralBody(1000, w, h)`
of `Body.cpp` builds it. -/
def central_body : Body F := ⟨0, 0, 0, 0, 0, 0, 1000⟩

/-- A two-body collection: a light body and the central one. -/
def two_body_system : List (Body F) := [light_body, central_body]

/-- Follows the claim's words: the wrap of one coordinate with the exact halves
of the extent as thresholds. -/
def wrap_axis_exact_half (p : F) (extent : Int) : F :=
  if p < -(extent : F) / 2 then p + (extent : F)
  else if p > (extent : F) / 2 then p - (extent : F)
  else p

/-- A light body at rest at `x = 9/4`, with no acceleration. -/
def resting_body : Body F := ⟨9 / 4, 0, 0, 0, 0, 0, 1⟩

/-- A light body at rest at `(-4/2 + 1, 0)`, the position `(width/2 + 1, 0)`
for `width = -4`. -/
def resting_body_negative_extent : Body F := ⟨-4 / 2 + 1, 0, 0, 0, 0, 0, 1⟩

/-- The position of a body after the velocity and position updates of
`integrate_bodies` (lines 56-61), before the wrap: the x coordinate. -/
def euler_x (dt : F) (b : Body F) : F :=
  b.x + (b.velocity_x + b.acceleration_x * dt) * dt

/-- The y coordinate after lines 56-61, before the wrap. -/
def euler_y (dt : F) (b : Body F) : F :=
  b.y + (b.velocity_y + b.acceleration_y * dt) * dt

/-- Two bodies agree on position, velocity and mass. -/
def same_state_but_acceleration (a b : Body F) : Prop :=
  a.x = b.x ∧ a.y = b.y ∧ a.velocity_x = b.velocity_x ∧ a.velocity_y = b.velocity_y ∧
    a.mass = b.mass

instance (a b : Body F) : Decidable (same_state_but_acceleration a b) := by
  unfold same_state_but_acceleration
  infer_instance

/-- A light body far to the right of the domain `[-2, 2]`, at rest. -/
def far_body : Body F := ⟨11, 0, 0, 0, 0, 0, 1⟩

/-- The light body of `light_body` with stale accelerations stored in it. -/
def light_body_stale : Body F := ⟨3, 4, 1, 0, 7, -2, 2⟩

/-- What the round trip through the batch leaves in a body: position, velocity
and mass as they were, zero acceleration. -/
def after_round_trip (b : Body F) : Body F :=
  { b with acceleration_x := 0, acceleration_y := 0 }

/-- Lines 30-42 of `compute_forces` without the test of line 28: what
`other_body` adds to the acceleration of `current_body`. -/
def attract (sqrtF : F → F) (G eps : F) (current_body other_body : Body F) : Body F :=
  let dx := other_body.x - current_body.x
  let dy := other_body.y - current_body.y
  let inv_distance_cubed := (1 / sqrtF (dx ^ 2 + dy ^ 2 + eps ^ 2)) ^ 3
  let force := G * other_body.mass * inv_distance_cubed
  { current_body with
    acceleration_x := current_body.acceleration_x + dx * force
    acceleration_y := current_body.acceleration_y + dy * force }

/-- Follows the claim's words: one iteration of the inner loop of the variant
of `compute_forces` that skips a pair only when the two indices are equal. -/
def forces_pair_by_index (sqrtF : F → F) (G eps : F) (i : Nat) (bodies : List (Body F))
    (j : Nat) : List (Body F) :=
  match bodies[i]?, bodies[j]? with
  | some current_body, some other_body =>
      if i = j then bodies else bodies.set i (attract sqrtF G eps current_body other_body)
  | _, _ => bodies

/-- Follows the claim's words: the inner loop of the variant for the body at
index `i`. -/
def forces_row_by_index (sqrtF : F → F) (G eps : F) (bodies : List (Body F)) (i : Nat) :
    List (Body F) :=
  (List.range bodies.length).foldl (forces_pair_by_index sqrtF G eps i) bodies

/-- Follows the claim's words: `compute_forces` with the test `i = j` on the
indices in place of `current_body == other_body` on the positions, everything
else as in the source. -/
def compute_forces_by_index (sqrtF : F → F) (G eps : F) (bodies : List (Body F)) :
    List (Body F) :=
  let cleared := bodies.map clear_acceleration
  (List.range cleared.length).foldl (forces_row_by_index sqrtF G eps) cleared

/-- The x component that `attract` adds for `other_body` to the acceleration
of a body at `(px, py)`. -/
def raw_pull_x (sqrtF : F → F) (G eps px py : F) (other_body : Body F) : F :=
  (other_body.x - px) *
    (G * other_body.mass *
      (1 / sqrtF ((other_body.x - px) ^ 2 + (other_body.y - py) ^ 2 + eps ^ 2)) ^ 3)

/-- The y component that `attract` adds for `other_body`. -/
def raw_pull_y (sqrtF : F → F) (G eps px py : F) (other_body : Body F) : F :=
  (other_body.y - py) *
    (G * other_body.mass *
      (1 / sqrtF ((other_body.x - px) ^ 2 + (other_body.y - py) ^ 2 + eps ^ 2)) ^ 3)

/-- The x component that the variant adds to the body at index `i`, placed at
`(px, py)`, for the index `j`: nothing for `j = i`, the pull of the body at `j`
otherwise. -/
def index_pull_x (sqrtF : F → F) (G eps : F) (bodies : List (Body F)) (i : Nat) (px py : F)
    (j : Nat) : F :=
  if i = j then 0
  else
    match bodies[j]? with
    | some other_body => raw_pull_x sqrtF G eps px py other_body
    | none => 0

/-- The y component that the variant adds to the body at index `i` for the
index `j`. -/
def index_pull_y (sqrtF : F → F) (G eps : F) (bodies : List (Body F)) (i : Nat) (px py : F)
    (j : Nat) : F :=
  if i = j then 0
  else
    match bodies[j]? with
    | some other_body => raw_pull_y sqrtF G eps px py other_body
    | none => 0

/-- Three bodies, the first two distinct but at the same position `(3, 4)`. -/
def coincident_system : List (Body F) :=
  [light_body, ⟨3, 4, 0, 1, 0, 0, 5⟩, central_body]

/-! ## Auxiliary lemmas -/

theorem interact_eq (sqrtF : F → F) (G eps : F) (c o : Body F) :
    interact sqrtF G eps c o =
      { c with
        acceleration_x := c.acceleration_x + pull_x sqrtF G eps c.x c.y o
        acceleration_y := c.acceleration_y + pull_y sqrtF G eps c.x c.y o } := by
  unfold interact Body.op_eq pull_x pull_y
  by_cases h : c.x = o.x ∧ c.y = o.y
  · rw [if_pos (by simpa using h), if_pos h, if_pos h]; simp
  · rw [if_neg (by simpa using h), if_neg h, if_neg h]

theorem foldl_interact (sqrtF : F → F) (G eps : F) (l : List (Body F)) (c : Body F) :
    l.foldl (interact sqrtF G eps) c =
      { c with
        acceleration_x := c.acceleration_x + (l.map (pull_x sqrtF G eps c.x c.y)).sum
        acceleration_y := c.acceleration_y + (l.map (pull_y sqrtF G eps c.x c.y)).sum } := by
  induction l generalizing c with
  | nil => simp
  | cons o l ih =>
    rw [List.foldl_cons, ih, interact_eq]
    simp [add_assoc]

/-- The body at index `i` after its inner loop has run over the first `n`
elements. -/
theorem forces_row_upto (sqrtF : F → F) (G eps : F) (bodies : List (Body F)) (i : Nat)
    (b : Body F) (hb : bodies[i]? = some b) (n : Nat) (hn : n ≤ bodies.length) :
    (List.range n).foldl (forces_pair sqrtF G eps i) bodies =
      bodies.set i ((bodies.take n).foldl (interact sqrtF G eps) b) := by
  have hi : i < bodies.length := by
    rcases List.getElem?_eq_some_iff.1 hb with ⟨h, -⟩; exact h
  induction n with
  | zero =>
    simp
    apply List.ext_getElem?
    intro k
    rw [List.getElem?_set]
    by_cases hk : i = k
    · subst hk; simp [hi, hb]
    · simp [hk]
  | succ n ih =>
    have hn' : n < bodies.length := hn
    rw [List.range_succ, List.foldl_append, ih (Nat.le_of_lt hn')]
    simp only [List.foldl_cons, List.foldl_nil]
    rw [List.take_succ, List.foldl_append]
    have ho : bodies[n]? = some bodies[n] := List.getElem?_eq_getElem hn'
    rw [ho]
    simp only [Option.toList_some, List.foldl_cons, List.foldl_nil]
    have hcx : ((List.take n bodies).foldl (interact sqrtF G eps) b).x = b.x := by
      rw [foldl_interact]
    have hcy : ((List.take n bodies).foldl (interact sqrtF G eps) b).y = b.y := by
      rw [foldl_interact]
    generalize (List.take n bodies).foldl (interact sqrtF G eps) b = c at hcx hcy ⊢
    unfold forces_pair
    rw [List.getElem?_set_self hi]
    by_cases hin : i = n
    · subst hin
      rw [List.getElem?_set_self hi]
      simp only [List.set_set]
      have hb' : bodies[i] = b := by
        rw [ho] at hb; exact Option.some.inj hb
      rw [hb', interact_eq, interact_eq]
      simp [pull_x, pull_y, hcx, hcy]
    · rw [List.getElem?_set_ne hin, ho]
      simp only [List.set_set]

theorem forces_row_eq (sqrtF : F → F) (G eps : F) (bodies : List (Body F)) (i : Nat)
    (b : Body F) (hb : bodies[i]? = some b) :
    forces_row sqrtF G eps bodies i = bodies.set i (row_result sqrtF G eps bodies b) := by
  unfold forces_row
  rw [forces_row_upto sqrtF G eps bodies i b hb bodies.length (le_refl _), List.take_length,
    foldl_interact]
  rfl

theorem map_congr_getElem? {α β : Type} (f : α → β) (l l' : List α)
    (h : ∀ j : Nat, Option.map f l[j]? = Option.map f l'[j]?) : l.map f = l'.map f := by
  apply List.ext_getElem?
  intro j
  rw [List.getElem?_map, List.getElem?_map, h j]

theorem pull_x_row_result (sqrtF : F → F) (G eps px py : F) (st : List (Body F)) (b : Body F) :
    pull_x sqrtF G eps px py (row_result sqrtF G eps st b) = pull_x sqrtF G eps px py b := rfl

theorem pull_y_row_result (sqrtF : F → F) (G eps px py : F) (st : List (Body F)) (b : Body F) :
    pull_y sqrtF G eps px py (row_result sqrtF G eps st b) = pull_y sqrtF G eps px py b := rfl

theorem forces_rows_upto (sqrtF : F → F) (G eps : F) (st : List (Body F)) (k : Nat)
    (hk : k ≤ st.length) (j : Nat) :
    ((List.range k).foldl (forces_row sqrtF G eps) st)[j]? =
      if j < k then (st[j]?).map (row_result sqrtF G eps st) else st[j]? := by
  induction k generalizing j with
  | zero => simp
  | succ k ih =>
    have hk' : k < st.length := hk
    have ih' := ih (Nat.le_of_lt hk')
    rw [List.range_succ, List.foldl_append]
    simp only [List.foldl_cons, List.foldl_nil]
    generalize (List.range k).foldl (forces_row sqrtF G eps) st = s at ih'
    have hsk : s[k]? = some st[k] := by
      rw [ih' k, if_neg (lt_irrefl k)]; exact List.getElem?_eq_getElem hk'
    have hmx : ∀ px py, s.map (pull_x sqrtF G eps px py) = st.map (pull_x sqrtF G eps px py) := by
      intro px py
      apply map_congr_getElem?
      intro m
      rw [ih' m]
      split_ifs
      · cases st[m]? <;> simp [pull_x_row_result]
      · rfl
    have hmy : ∀ px py, s.map (pull_y sqrtF G eps px py) = st.map (pull_y sqrtF G eps px py) := by
      intro px py
      apply map_congr_getElem?
      intro m
      rw [ih' m]
      split_ifs
      · cases st[m]? <;> simp [pull_y_row_result]
      · rfl
    have hrr : row_result sqrtF G eps s st[k] = row_result sqrtF G eps st st[k] := by
      unfold row_result; rw [hmx, hmy]
    have hlen : k < s.length := by
      rcases List.getElem?_eq_some_iff.1 hsk with ⟨h, -⟩; exact h
    rw [forces_row_eq sqrtF G eps s k st[k] hsk, hrr, List.getElem?_set]
    by_cases hkj : k = j
    · subst hkj
      simp [hlen, hk']
    · rw [if_neg hkj, ih' j]
      have h1 : j < k + 1 ↔ j < k := by omega
      simp only [h1]

/-- Closed form of `compute_forces`: every body keeps its position, velocity
and mass, and its acceleration is the sum of the pulls of all bodies. -/
theorem compute_forces_eq (sqrtF : F → F) (G eps : F) (bodies : List (Body F)) :
    compute_forces sqrtF G eps bodies =
      bodies.map (fun b =>
        { b with
          acceleration_x := (bodies.map (pull_x sqrtF G eps b.x b.y)).sum
          acceleration_y := (bodies.map (pull_y sqrtF G eps b.x b.y)).sum }) := by
  unfold compute_forces
  apply List.ext_getElem?
  intro j
  simp only []
  rw [forces_rows_upto sqrtF G eps _ _ (le_refl _) j]
  simp only [List.length_map, List.getElem?_map]
  by_cases hj : j < bodies.length
  · rw [if_pos hj, List.getElem?_eq_getElem hj]
    simp only [Option.map_some']
    have hx : ∀ px py, (bodies.map clear_acceleration).map (pull_x sqrtF G eps px py) =
        bodies.map (pull_x sqrtF G eps px py) := by
      intro px py; rw [List.map_map]; rfl
    have hy : ∀ px py, (bodies.map clear_acceleration).map (pull_y sqrtF G eps px py) =
        bodies.map (pull_y sqrtF G eps px py) := by
      intro px py; rw [List.map_map]; rfl
    unfold row_result
    rw [hx, hy]
    simp [clear_acceleration]
  · rw [if_neg hj]
    simp [List.getElem?_eq_none (not_lt.1 hj)]

theorem sum_map_ite_zero {α : Type} (p : α → Prop) [DecidablePred p] (t : α → F) (l : List α) :
    (l.map (fun o => if p o then 0 else t o)).sum =
      ((l.filter (fun o => decide (¬ p o))).map t).sum := by
  induction l with
  | nil => simp
  | cons a l ih =>
    by_cases h : p a
    · simp [List.filter_cons, h, ih]
    · simp [List.filter_cons, h, ih]

theorem softened_pos (dx dy eps : ℝ) (h : ¬ (dx = 0 ∧ dy = 0)) :
    0 < dx ^ 2 + dy ^ 2 + eps ^ 2 := by
  have h1 : 0 < dx ^ 2 + dy ^ 2 := by
    by_contra hc
    have hx : dx ^ 2 = 0 := by nlinarith [sq_nonneg dx, sq_nonneg dy]
    have hy : dy ^ 2 = 0 := by nlinarith [sq_nonneg dx, sq_nonneg dy]
    exact h ⟨pow_eq_zero_iff (two_ne_zero) |>.1 hx, pow_eq_zero_iff (two_ne_zero) |>.1 hy⟩
  nlinarith [sq_nonneg eps]

theorem inv_sqrt_cubed (s : ℝ) (hs : 0 ≤ s) :
    (1 / Real.sqrt s) ^ 3 = 1 / s ^ (1.5 : ℝ) := by
  have h15 : (1.5 : ℝ) = (1 / 2 : ℝ) * (3 : ℕ) := by norm_num
  rw [h15, Real.rpow_mul hs, Real.rpow_natCast, ← Real.sqrt_eq_rpow, one_div, one_div, inv_pow]

theorem pull_x_real (G eps px py : ℝ) (o : Body ℝ) :
    pull_x Real.sqrt G eps px py o =
      if px = o.x ∧ py = o.y then 0
      else G * o.mass * (o.x - px) / ((o.x - px) ^ 2 + (o.y - py) ^ 2 + eps ^ 2) ^ (1.5 : ℝ) := by
  unfold pull_x
  split_ifs with h
  · rfl
  · rw [inv_sqrt_cubed _ (by positivity)]
    ring

theorem pull_y_real (G eps px py : ℝ) (o : Body ℝ) :
    pull_y Real.sqrt G eps px py o =
      if px = o.x ∧ py = o.y then 0
      else G * o.mass * (o.y - py) / ((o.x - px) ^ 2 + (o.y - py) ^ 2 + eps ^ 2) ^ (1.5 : ℝ) := by
  unfold pull_y
  split_ifs with h
  · rfl
  · rw [inv_sqrt_cubed _ (by positivity)]
    ring

theorem compute_forces_getElem? (sqrtF : F → F) (G eps : F) (bodies : List (Body F)) (i : Nat) :
    (compute_forces sqrtF G eps bodies)[i]? =
      Option.map (fun b =>
        { b with
          acceleration_x := (bodies.map (pull_x sqrtF G eps b.x b.y)).sum
          acceleration_y := (bodies.map (pull_y sqrtF G eps b.x b.y)).sum }) bodies[i]? := by
  rw [compute_forces_eq, List.getElem?_map]

theorem compute_forces_clear (sqrtF : F → F) (G eps : F) (bodies : List (Body F)) :
    compute_forces sqrtF G eps (bodies.map clear_acceleration) =
      compute_forces sqrtF G eps bodies := by
  rw [compute_forces_eq, compute_forces_eq, List.map_map]
  apply List.map_congr_left
  intro b _
  have hx : ∀ px py, (bodies.map clear_acceleration).map (pull_x sqrtF G eps px py) =
      bodies.map (pull_x sqrtF G eps px py) := by
    intro px py; rw [List.map_map]; rfl
  have hy : ∀ px py, (bodies.map clear_acceleration).map (pull_y sqrtF G eps px py) =
      bodies.map (pull_y sqrtF G eps px py) := by
    intro px py; rw [List.map_map]; rfl
  simp only [Function.comp_apply]
  rw [hx, hy]
  rfl

theorem integrate_body_heavy (dt : F) (width height : Int) (b : Body F) (h : b.mass ≥ 1000) :
    integrate_body dt width height b = b := by
  unfold integrate_body; rw [if_pos h]

theorem integrate_body_light (dt : F) (width height : Int) (b : Body F) (h : b.mass < 1000) :
    integrate_body dt width height b =
      { b with
        velocity_x := b.velocity_x + b.acceleration_x * dt
        velocity_y := b.velocity_y + b.acceleration_y * dt
        x := wrap_axis (b.x + (b.velocity_x + b.acceleration_x * dt) * dt) width
        y := wrap_axis (b.y + (b.velocity_y + b.acceleration_y * dt) * dt) height } := by
  unfold integrate_body; rw [if_neg (not_le.2 h)]

theorem integrate_body_mass (dt : F) (width height : Int) (b : Body F) :
    (integrate_body dt width height b).mass = b.mass := by
  unfold integrate_body; split_ifs <;> rfl

theorem integrate_body_acceleration (dt : F) (width height : Int) (b : Body F) :
    (integrate_body dt width height b).acceleration_x = b.acceleration_x ∧
      (integrate_body dt width height b).acceleration_y = b.acceleration_y := by
  unfold integrate_body; split_ifs <;> exact ⟨rfl, rfl⟩

theorem runCpuComputation_getElem? (sqrtF : F → F) (G eps dt : F) (width height : Int)
    (bodies : List (Body F)) (i : Nat) :
    (runCpuComputation sqrtF G eps dt width height bodies)[i]? =
      Option.map (fun b => integrate_body dt width height
        { b with
          acceleration_x := (bodies.map (pull_x sqrtF G eps b.x b.y)).sum
          acceleration_y := (bodies.map (pull_y sqrtF G eps b.x b.y)).sum }) bodies[i]? := by
  unfold runCpuComputation integrate_bodies
  rw [List.getElem?_map, compute_forces_getElem?, Option.map_map]
  rfl

theorem wrap_axis_cases (p : F) (extent : Int) :
    wrap_axis p extent - p = 0 ∨ wrap_axis p extent - p = (extent : F) ∨
      wrap_axis p extent - p = -(extent : F) := by
  unfold wrap_axis
  split_ifs
  · right; left; ring
  · right; right; ring
  · left; ring

theorem tdiv_neg_two (w : Int) : Int.tdiv (-w) 2 = -Int.tdiv w 2 := Int.neg_tdiv w 2

theorem tdiv_two_even (w : Int) (h : 2 ∣ w) : ((Int.tdiv w 2 : Int) : F) = (w : F) / 2 := by
  obtain ⟨k, rfl⟩ := h
  rw [Int.mul_tdiv_cancel_left k (by decide)]
  push_cast
  ring

theorem tdiv_two_bounds (w : Int) (h : -1 ≤ w) : 0 ≤ Int.tdiv w 2 ∧ 2 * Int.tdiv w 2 ≤ w + 1 := by
  rcases eq_or_lt_of_le h with h1 | h1
  · subst h1; decide
  · have h0 : 0 ≤ w := by omega
    rw [Int.tdiv_eq_ediv h0 (by decide)]
    omega

theorem tdiv_two_le_half (w : Int) (h : 0 ≤ w) : ((Int.tdiv w 2 : Int) : F) ≤ (w : F) / 2 := by
  have h1 : 2 * Int.tdiv w 2 ≤ w := by
    rw [Int.tdiv_eq_ediv h (by decide)]; omega
  have h2 : ((2 * Int.tdiv w 2 : Int) : F) ≤ (w : F) := by exact_mod_cast h1
  push_cast at h2
  linarith

theorem wrap_axis_within (p : F) (extent : Int) (h : |p| ≤ ((Int.tdiv extent 2 : Int) : F)) :
    wrap_axis p extent = p := by
  unfold wrap_axis
  rw [tdiv_neg_two]
  have h1 := abs_le.1 h
  push_cast
  rw [if_neg (not_lt.2 h1.1), if_neg (not_lt.2 h1.2)]

theorem wrap_axis_example (extent : Int) (h : -1 ≤ extent) :
    wrap_axis ((extent : F) / 2 + 1) extent = -(extent : F) / 2 + 1 ∧
      wrap_axis (0 : F) extent = 0 := by
  obtain ⟨h0, h2⟩ := tdiv_two_bounds extent h
  have h0F : (0 : F) ≤ ((Int.tdiv extent 2 : Int) : F) := by exact_mod_cast h0
  have h2F : ((2 * Int.tdiv extent 2 : Int) : F) ≤ ((extent + 1 : Int) : F) := by exact_mod_cast h2
  have hF : ((-1 : Int) : F) ≤ (extent : F) := by exact_mod_cast h
  push_cast at h2F hF
  unfold wrap_axis
  rw [tdiv_neg_two]
  push_cast
  constructor
  · rw [if_neg (by linarith), if_pos (by linarith)]; ring
  · rw [if_neg (by linarith), if_neg (by linarith)]

theorem clear_eq_of_same_state (a b : Body F) (h : same_state_but_acceleration a b) :
    clear_acceleration a = clear_acceleration b := by
  obtain ⟨h1, h2, h3, h4, h5⟩ := h
  cases a; cases b
  simp only [clear_acceleration] at *
  simp [h1, h2, h3, h4, h5]

theorem map_clear_eq_of_forall₂ (l l' : List (Body F))
    (h : List.Forall₂ same_state_but_acceleration l l') :
    l.map clear_acceleration = l'.map clear_acceleration := by
  induction h with
  | nil => rfl
  | cons hab _ ih => rw [List.map_cons, List.map_cons, ih, clear_eq_of_same_state _ _ hab]

theorem pull_self (sqrtF : F → F) (G eps : F) (b : Body F) :
    pull_x sqrtF G eps b.x b.y b = 0 ∧ pull_y sqrtF G eps b.x b.y b = 0 := by
  unfold pull_x pull_y; simp

theorem compute_forces_pair (sqrtF : F → F) (G eps : F) (A B : Body F) :
    compute_forces sqrtF G eps [A, B] =
      [{ A with
          acceleration_x := pull_x sqrtF G eps A.x A.y B
          acceleration_y := pull_y sqrtF G eps A.x A.y B },
        { B with
          acceleration_x := pull_x sqrtF G eps B.x B.y A
          acceleration_y := pull_y sqrtF G eps B.x B.y A }] := by
  rw [compute_forces_eq]
  simp [(pull_self sqrtF G eps A).1, (pull_self sqrtF G eps A).2,
    (pull_self sqrtF G eps B).1, (pull_self sqrtF G eps B).2]

theorem sqrt_scaled (u v k m : ℝ) (hm : 0 ≤ m) :
    Real.sqrt ((u * (k * m)) ^ 2 + (v * (k * m)) ^ 2) =
      Real.sqrt ((u * k) ^ 2 + (v * k) ^ 2) * m := by
  have h : (u * (k * m)) ^ 2 + (v * (k * m)) ^ 2 = ((u * k) ^ 2 + (v * k) ^ 2) * m ^ 2 := by ring
  rw [h, Real.sqrt_mul' _ (sq_nonneg m), Real.sqrt_sq hm]

theorem set_at_boundary {α : Type} (s t : List α) (a v : α) (k : Nat) (hk : s.length = k) :
    (s ++ a :: t).set k v = s ++ v :: t := by
  rw [List.set_append_right _ _ (by omega)]
  have : k - s.length = 0 := by omega
  rw [this, List.set_cons_zero]

theorem set_filled_upto {α β : Type} (f : β → α) (z : α) (bs : List β) (n k : Nat) (b : β)
    (hb : bs[k]? = some b) (hn : k < n) :
    ((bs.take k).map f ++ List.replicate (n - k) z).set k (f b) =
      (bs.take (k + 1)).map f ++ List.replicate (n - (k + 1)) z := by
  have hk : k < bs.length := by
    rcases List.getElem?_eq_some_iff.1 hb with ⟨h, -⟩; exact h
  have hlen : ((bs.take k).map f).length = k := by
    rw [List.length_map, List.length_take]; omega
  have hrep : List.replicate (n - k) z = z :: List.replicate (n - (k + 1)) z := by
    have : n - k = (n - (k + 1)) + 1 := by omega
    rw [this, List.replicate_succ]
  rw [hrep, List.take_succ, hb, set_at_boundary _ _ _ _ _ hlen]
  simp

theorem set_mapped_upto {β : Type} (g : β → β) (bs : List β) (k : Nat) (b : β)
    (hb : bs[k]? = some b) :
    ((bs.take k).map g ++ bs.drop k).set k (g b) =
      (bs.take (k + 1)).map g ++ bs.drop (k + 1) := by
  have hk : k < bs.length := by
    rcases List.getElem?_eq_some_iff.1 hb with ⟨h, -⟩; exact h
  have hlen : ((bs.take k).map g).length = k := by
    rw [List.length_map, List.length_take]; omega
  rw [List.drop_eq_getElem_cons hk, List.take_succ, hb, set_at_boundary _ _ _ _ _ hlen]
  simp

theorem getElem?_mapped_upto {β : Type} (g : β → β) (bs : List β) (k : Nat) :
    ((bs.take k).map g ++ bs.drop k)[k]? = bs[k]? := by
  by_cases hk : k ≤ bs.length
  · have hlen : ((bs.take k).map g).length = k := by
      rw [List.length_map, List.length_take]; omega
    rw [List.getElem?_append_right (by omega), hlen, List.getElem?_drop]
    simp
  · have h1 : bs.length ≤ k := by omega
    rw [List.getElem?_eq_none h1, List.getElem?_eq_none]
    simp only [List.length_append, List.length_map, List.length_take, List.length_drop]
    omega

theorem getElem?_filled_upto {α β : Type} (f : β → α) (z : α) (bs : List β) (n k : Nat)
    (hk : k < bs.length) (hn : k < n) :
    ((bs.take k).map f ++ List.replicate (n - k) z)[k]? = some z := by
  have hlen : ((bs.take k).map f).length = k := by
    rw [List.length_map, List.length_take]; omega
  rw [List.getElem?_append_right (by omega), hlen, List.getElem?_replicate]
  simp; omega

/-- The batch after the first `k` iterations of the pack loop. -/
theorem pack_upto (bodies : List (Body F)) (k : Nat) (hk : k ≤ bodies.length) :
    (List.range k).foldl (pack_step bodies) (BodiesSOA.init bodies.length) =
      { x := (bodies.take k).map (fun b => b.x) ++ List.replicate (bodies.length - k) 0
        y := (bodies.take k).map (fun b => b.y) ++ List.replicate (bodies.length - k) 0
        vx := (bodies.take k).map (fun b => b.velocity_x) ++ List.replicate (bodies.length - k) 0
        vy := (bodies.take k).map (fun b => b.velocity_y) ++ List.replicate (bodies.length - k) 0
        ax := (bodies.take k).map (fun _ => (0 : F)) ++ List.replicate (bodies.length - k) 0
        ay := (bodies.take k).map (fun _ => (0 : F)) ++ List.replicate (bodies.length - k) 0
        mass := (bodies.take k).map (fun b => b.mass) ++ List.replicate (bodies.length - k) 0
        size := bodies.length } := by
  induction k with
  | zero => simp [BodiesSOA.init]
  | succ k ih =>
    have hk' : k < bodies.length := hk
    have hb : bodies[k]? = some bodies[k] := List.getElem?_eq_getElem hk'
    rw [List.range_succ, List.foldl_append, ih (Nat.le_of_lt hk')]
    simp only [List.foldl_cons, List.foldl_nil]
    unfold pack_step
    rw [hb]
    simp only []
    rw [set_filled_upto (fun b : Body F => b.x) 0 bodies _ k _ hb hk',
      set_filled_upto (fun b : Body F => b.y) 0 bodies _ k _ hb hk',
      set_filled_upto (fun b : Body F => b.velocity_x) 0 bodies _ k _ hb hk',
      set_filled_upto (fun b : Body F => b.velocity_y) 0 bodies _ k _ hb hk',
      set_filled_upto (fun b : Body F => b.mass) 0 bodies _ k _ hb hk',
      set_filled_upto (fun _ : Body F => (0 : F)) 0 bodies _ k _ hb hk']

theorem pack_soa_eq (bodies : List (Body F)) :
    pack_soa bodies.length bodies =
      { x := bodies.map (fun b => b.x)
        y := bodies.map (fun b => b.y)
        vx := bodies.map (fun b => b.velocity_x)
        vy := bodies.map (fun b => b.velocity_y)
        ax := bodies.map (fun _ => (0 : F))
        ay := bodies.map (fun _ => (0 : F))
        mass := bodies.map (fun b => b.mass)
        size := bodies.length } := by
  unfold pack_soa
  rw [pack_upto bodies bodies.length (le_refl _)]
  simp

theorem unpack_upto (bodies : List (Body F)) (k : Nat) (hk : k ≤ bodies.length) :
    (List.range k).foldl (unpack_step (pack_soa bodies.length bodies)) bodies =
      (bodies.take k).map after_round_trip ++ bodies.drop k := by
  induction k with
  | zero => simp
  | succ k ih =>
    have hk' : k < bodies.length := hk
    have hb : bodies[k]? = some bodies[k] := List.getElem?_eq_getElem hk'
    rw [List.range_succ, List.foldl_append, ih (Nat.le_of_lt hk')]
    simp only [List.foldl_cons, List.foldl_nil]
    unfold unpack_step
    rw [getElem?_mapped_upto, pack_soa_eq]
    simp only [List.getElem?_map, hb, Option.map_some']
    exact set_mapped_upto after_round_trip bodies k bodies[k] hb

theorem attract_eq (sqrtF : F → F) (G eps : F) (c o : Body F) :
    attract sqrtF G eps c o =
      { c with
        acceleration_x := c.acceleration_x + raw_pull_x sqrtF G eps c.x c.y o
        acceleration_y := c.acceleration_y + raw_pull_y sqrtF G eps c.x c.y o } := rfl

theorem forces_row_by_index_upto (sqrtF : F → F) (G eps : F) (bodies : List (Body F)) (i : Nat)
    (b : Body F) (hb : bodies[i]? = some b) (n : Nat) (hn : n ≤ bodies.length) :
    (List.range n).foldl (forces_pair_by_index sqrtF G eps i) bodies =
      bodies.set i
        { b with
          acceleration_x := b.acceleration_x +
            ((List.range n).map (index_pull_x sqrtF G eps bodies i b.x b.y)).sum
          acceleration_y := b.acceleration_y +
            ((List.range n).map (index_pull_y sqrtF G eps bodies i b.x b.y)).sum } := by
  have hi : i < bodies.length := by
    rcases List.getElem?_eq_some_iff.1 hb with ⟨h, -⟩; exact h
  induction n with
  | zero =>
    simp
    apply List.ext_getElem?
    intro k
    rw [List.getElem?_set]
    by_cases hk : i = k
    · subst hk; simp [hi, hb]
    · simp [hk]
  | succ n ih =>
    have hn' : n < bodies.length := hn
    have ho : bodies[n]? = some bodies[n] := List.getElem?_eq_getElem hn'
    rw [List.range_succ, List.foldl_append, ih (Nat.le_of_lt hn')]
    simp only [List.foldl_cons, List.foldl_nil, List.map_append, List.map_cons, List.map_nil,
      List.sum_append, List.sum_cons, List.sum_nil, add_zero]
    unfold forces_pair_by_index
    rw [List.getElem?_set_self hi]
    by_cases hin : i = n
    · subst hin
      rw [List.getElem?_set_self hi]
      simp [index_pull_x, index_pull_y]
    · rw [List.getElem?_set_ne hin, ho]
      simp only [if_neg hin, List.set_set]
      rw [attract_eq]
      simp [index_pull_x, index_pull_y, hin, ho, add_assoc]

theorem raw_pull_same_position (sqrtF : F → F) (G eps px py : F) (o : Body F)
    (h : px = o.x ∧ py = o.y) :
    raw_pull_x sqrtF G eps px py o = 0 ∧ raw_pull_y sqrtF G eps px py o = 0 := by
  unfold raw_pull_x raw_pull_y
  rw [h.1, h.2, sub_self, sub_self, zero_mul]
  exact ⟨rfl, rfl⟩

theorem pull_eq_raw_pull (sqrtF : F → F) (G eps px py : F) (o : Body F) :
    pull_x sqrtF G eps px py o = raw_pull_x sqrtF G eps px py o ∧
      pull_y sqrtF G eps px py o = raw_pull_y sqrtF G eps px py o := by
  by_cases h : px = o.x ∧ py = o.y
  · rw [(raw_pull_same_position sqrtF G eps px py o h).1,
      (raw_pull_same_position sqrtF G eps px py o h).2]
    unfold pull_x pull_y
    rw [if_pos h, if_pos h]
    exact ⟨rfl, rfl⟩
  · unfold pull_x pull_y raw_pull_x raw_pull_y
    rw [if_neg h, if_neg h]
    exact ⟨rfl, rfl⟩

theorem index_pull_eq_pull (sqrtF : F → F) (G eps : F) (st : List (Body F)) (i : Nat)
    (b : Body F) (hb : st[i]? = some b) (m : Nat) (hm : m < st.length) :
    index_pull_x sqrtF G eps st i b.x b.y m = pull_x sqrtF G eps b.x b.y st[m] ∧
      index_pull_y sqrtF G eps st i b.x b.y m = pull_y sqrtF G eps b.x b.y st[m] := by
  have ho : st[m]? = some st[m] := List.getElem?_eq_getElem hm
  unfold index_pull_x index_pull_y
  by_cases him : i = m
  · subst him
    have hbe : st[i] = b := by rw [ho] at hb; exact Option.some.inj hb
    rw [if_pos rfl, if_pos rfl, hbe, (pull_self sqrtF G eps b).1, (pull_self sqrtF G eps b).2]
    exact ⟨rfl, rfl⟩
  · rw [if_neg him, if_neg him, ho]
    simp only []
    rw [(pull_eq_raw_pull sqrtF G eps b.x b.y st[m]).1,
      (pull_eq_raw_pull sqrtF G eps b.x b.y st[m]).2]
    exact ⟨rfl, rfl⟩

theorem map_range_eq_map {α β : Type} (l : List α) (f : α → β) (g : Nat → β)
    (h : ∀ (m : Nat) (hm : m < l.length), g m = f l[m]) :
    (List.range l.length).map g = l.map f := by
  apply List.ext_getElem?
  intro m
  rw [List.getElem?_map, List.getElem?_map]
  by_cases hm : m < l.length
  · rw [List.getElem?_range hm, List.getElem?_eq_getElem hm]
    simp only [Option.map_some']
    rw [h m hm]
  · rw [List.getElem?_eq_none (not_lt.1 hm), List.getElem?_eq_none]
    · rfl
    · rw [List.length_range]; exact not_lt.1 hm

theorem foldl_forces_pair_none (sqrtF : F → F) (G eps : F) (st : List (Body F)) (i : Nat)
    (h : st[i]? = none) (js : List Nat) :
    js.foldl (forces_pair sqrtF G eps i) st = st ∧
      js.foldl (forces_pair_by_index sqrtF G eps i) st = st := by
  induction js with
  | nil => exact ⟨rfl, rfl⟩
  | cons j js ih =>
    have h1 : forces_pair sqrtF G eps i st j = st := by
      unfold forces_pair; rw [h]
    have h2 : forces_pair_by_index sqrtF G eps i st j = st := by
      unfold forces_pair_by_index; rw [h]
    rw [List.foldl_cons, List.foldl_cons, h1, h2]
    exact ih

/-- Row by row the variant does what the source does. -/
theorem forces_row_by_index_eq (sqrtF : F → F) (G eps : F) (st : List (Body F)) (i : Nat) :
    forces_row_by_index sqrtF G eps st i = forces_row sqrtF G eps st i := by
  cases hb : st[i]? with
  | none =>
    unfold forces_row_by_index forces_row
    rw [(foldl_forces_pair_none sqrtF G eps st i hb _).1,
      (foldl_forces_pair_none sqrtF G eps st i hb _).2]
  | some b =>
    rw [forces_row_eq sqrtF G eps st i b hb]
    unfold forces_row_by_index
    rw [forces_row_by_index_upto sqrtF G eps st i b hb st.length (le_refl _)]
    unfold row_result
    rw [map_range_eq_map st (pull_x sqrtF G eps b.x b.y) _
        (fun m hm => (index_pull_eq_pull sqrtF G eps st i b hb m hm).1),
      map_range_eq_map st (pull_y sqrtF G eps b.x b.y) _
        (fun m hm => (index_pull_eq_pull sqrtF G eps st i b hb m hm).2)]

/-- Over any ordered field and any square-root function the variant and the
source give the same collection. -/
theorem compute_forces_by_index_eq (sqrtF : F → F) (G eps : F) (bodies : List (Body F)) :
    compute_forces_by_index sqrtF G eps bodies = compute_forces sqrtF G eps bodies := by
  unfold compute_forces_by_index compute_forces
  have h : forces_row_by_index sqrtF G eps = forces_row sqrtF G eps := by
    funext st i; exact forces_row_by_index_eq sqrtF G eps st i
  rw [h]

theorem sqrt_softened_pos (eps : ℝ) (heps : eps ≠ 0) (dx dy : ℝ) :
    0 < Real.sqrt (dx ^ 2 + dy ^ 2 + eps ^ 2) := by
  apply Real.sqrt_pos.2
  have : 0 < eps ^ 2 := by positivity
  nlinarith [sq_nonneg dx, sq_nonneg dy]

/-! ## The claims -/

/-- Claim C1. Over the reals with the real square root, `compute_forces` leaves
position, velocity and mass of every body as they were and sets the acceleration
of body `bi` to the sum, over the bodies `bj` of the collection whose position
differs from that of `bi`, of `G * mass_j * (dx, dy) / (dx^2 + dy^2 + eps^2)^1.5`
with `(dx, dy) = position_j - position_i`. Every denominator that occurs is
positive. The result does not depend on the accelerations held on entry: two
collections that agree on position, velocity and mass give the same result. A
single-body collection ends with acceleration `(0, 0)`. -/
theorem compute_forces_acceleration (G eps : ℝ) (bodies : List (Body ℝ)) :
    compute_forces Real.sqrt G eps bodies =
      bodies.map (fun bi =>
        { bi with
          acceleration_x :=
            ((bodies.filter (fun bj => decide (¬ (bi.x = bj.x ∧ bi.y = bj.y)))).map
              (fun bj => G * bj.mass * (bj.x - bi.x) /
                ((bj.x - bi.x) ^ 2 + (bj.y - bi.y) ^ 2 + eps ^ 2) ^ (1.5 : ℝ))).sum
          acceleration_y :=
            ((bodies.filter (fun bj => decide (¬ (bi.x = bj.x ∧ bi.y = bj.y)))).map
              (fun bj => G * bj.mass * (bj.y - bi.y) /
                ((bj.x - bi.x) ^ 2 + (bj.y - bi.y) ^ 2 + eps ^ 2) ^ (1.5 : ℝ))).sum })
    ∧ (∀ bi bj : Body ℝ, ¬ (bi.x = bj.x ∧ bi.y = bj.y) →
        0 < (bj.x - bi.x) ^ 2 + (bj.y - bi.y) ^ 2 + eps ^ 2)
    ∧ (∀ bodies' : List (Body ℝ), List.Forall₂ same_state_but_acceleration bodies bodies' →
        compute_forces Real.sqrt G eps bodies = compute_forces Real.sqrt G eps bodies')
    ∧ (∀ b : Body ℝ, compute_forces Real.sqrt G eps [b] =
        [{ b with acceleration_x := 0, acceleration_y := 0 }]) := by
  refine ⟨?_, ?_, ?_, ?_⟩
  · rw [compute_forces_eq]
    apply List.map_congr_left
    intro bi _
    have hx : pull_x Real.sqrt G eps bi.x bi.y = fun bj =>
        if bi.x = bj.x ∧ bi.y = bj.y then 0
        else G * bj.mass * (bj.x - bi.x) /
          ((bj.x - bi.x) ^ 2 + (bj.y - bi.y) ^ 2 + eps ^ 2) ^ (1.5 : ℝ) := by
      funext bj; exact pull_x_real G eps bi.x bi.y bj
    have hy : pull_y Real.sqrt G eps bi.x bi.y = fun bj =>
        if bi.x = bj.x ∧ bi.y = bj.y then 0
        else G * bj.mass * (bj.y - bi.y) /
          ((bj.x - bi.x) ^ 2 + (bj.y - bi.y) ^ 2 + eps ^ 2) ^ (1.5 : ℝ) := by
      funext bj; exact pull_y_real G eps bi.x bi.y bj
    rw [hx, hy, sum_map_ite_zero, sum_map_ite_zero]
  · intro bi bj h
    apply softened_pos
    intro ⟨h1, h2⟩
    exact h ⟨by linarith, by linarith⟩
  · intro bodies' h
    rw [← compute_forces_clear Real.sqrt G eps bodies,
      ← compute_forces_clear Real.sqrt G eps bodies', map_clear_eq_of_forall₂ bodies bodies' h]
  · intro b
    rw [compute_forces_eq]
    simp [pull_x, pull_y]

/-- Claim C2. After any number `n` of successive calls of `runCpuComputation`,
a body whose initial mass is at least `1000` is still at its index and has
exactly its initial position, velocity and mass, whatever the other bodies, `G`,
`eps`, `dt`, `width` and `height` are. -/
theorem central_body_never_moves (sqrtF : F → F) (G eps dt : F) (width height : Int) (n : Nat)
    (bodies : List (Body F)) (i : Nat) (b : Body F)
    (hb : bodies[i]? = some b) (hm : b.mass ≥ 1000) :
    ∃ b' : Body F,
      (runCpuSteps sqrtF G eps dt width height n bodies)[i]? = some b' ∧
      b'.x = b.x ∧ b'.y = b.y ∧ b'.velocity_x = b.velocity_x ∧
      b'.velocity_y = b.velocity_y ∧ b'.mass = b.mass := by
  induction n generalizing bodies b with
  | zero => exact ⟨b, hb, rfl, rfl, rfl, rfl, rfl⟩
  | succ n ih =>
    have hstep := runCpuComputation_getElem? sqrtF G eps dt width height bodies i
    rw [hb, Option.map_some'] at hstep
    rw [integrate_body_heavy _ _ _ _ (by exact hm)] at hstep
    obtain ⟨b', h1, h2, h3, h4, h5, h6⟩ := ih _ _ hstep (by exact hm)
    exact ⟨b', h1, h2, h3, h4, h5, h6⟩

/-- The central body of `two_body_system` after three steps. -/
theorem central_body_never_moves_witness :
    (two_body_system : List (Body ℝ))[1]? = some central_body ∧
      (central_body : Body ℝ).mass ≥ 1000 ∧
      ∃ b' : Body ℝ,
        (runCpuSteps Real.sqrt 1 (1 / 10) (1 / 10) 1920 1080 3 two_body_system)[1]? = some b' ∧
        b'.x = (central_body : Body ℝ).x ∧ b'.y = (central_body : Body ℝ).y ∧
        b'.velocity_x = (central_body : Body ℝ).velocity_x ∧
        b'.velocity_y = (central_body : Body ℝ).velocity_y ∧
        b'.mass = (central_body : Body ℝ).mass :=
  ⟨rfl, le_refl _,
    central_body_never_moves Real.sqrt 1 (1 / 10) (1 / 10) 1920 1080 3
      two_body_system 1 central_body rfl (le_refl _)⟩

/-- Claim C3. For a body of mass below `1000`, `integrate_bodies` sets the
velocity to `v + a * dt`, and the final position differs from
`p + (v + a * dt) * dt`, the position moved with the updated velocity, by
exactly `0`, `+width` or `-width` in x and by `0`, `+height` or `-height` in y. -/
theorem integrate_bodies_semi_implicit (dt : F) (width height : Int)
    (bodies : List (Body F)) (i : Nat) (b : Body F)
    (hb : bodies[i]? = some b) (hm : b.mass < 1000) :
    ∃ b' : Body F,
      (integrate_bodies dt width height bodies)[i]? = some b' ∧
      b'.velocity_x = b.velocity_x + b.acceleration_x * dt ∧
      b'.velocity_y = b.velocity_y + b.acceleration_y * dt ∧
      (b'.x - (b.x + (b.velocity_x + b.acceleration_x * dt) * dt) = 0 ∨
        b'.x - (b.x + (b.velocity_x + b.acceleration_x * dt) * dt) = (width : F) ∨
        b'.x - (b.x + (b.velocity_x + b.acceleration_x * dt) * dt) = -(width : F)) ∧
      (b'.y - (b.y + (b.velocity_y + b.acceleration_y * dt) * dt) = 0 ∨
        b'.y - (b.y + (b.velocity_y + b.acceleration_y * dt) * dt) = (height : F) ∨
        b'.y - (b.y + (b.velocity_y + b.acceleration_y * dt) * dt) = -(height : F)) := by
  refine ⟨integrate_body dt width height b, ?_, ?_⟩
  · unfold integrate_bodies; rw [List.getElem?_map, hb]; rfl
  · rw [integrate_body_light dt width height b hm]
    exact ⟨rfl, rfl, wrap_axis_cases _ _, wrap_axis_cases _ _⟩

/-- The light body with stale accelerations `(7, -2)`, `dt = 1/10`. -/
theorem integrate_bodies_semi_implicit_witness :
    ([light_body_stale] : List (Body ℚ))[0]? = some light_body_stale ∧
      (light_body_stale : Body ℚ).mass < 1000 ∧
      ∃ b' : Body ℚ,
        (integrate_bodies (1 / 10) 1920 1080 ([light_body_stale] : List (Body ℚ)))[0]? =
          some b' ∧
        b'.velocity_x = (light_body_stale : Body ℚ).velocity_x +
          (light_body_stale : Body ℚ).acceleration_x * (1 / 10) ∧
        b'.velocity_y = (light_body_stale : Body ℚ).velocity_y +
          (light_body_stale : Body ℚ).acceleration_y * (1 / 10) := by
  have hm : (light_body_stale : Body ℚ).mass < 1000 := by norm_num [light_body_stale]
  obtain ⟨b', h1, h2, h3, -⟩ :=
    integrate_bodies_semi_implicit (1 / 10 : ℚ) 1920 1080 [light_body_stale] 0
      light_body_stale rfl hm
  exact ⟨rfl, hm, b', h1, h2, h3⟩

/-- Claim C4 as stated fails. With `width = 5` a light body at rest at
`x = 9/4` has `|x'| = 9/4 <= 5/2`, so the rule with exact halves leaves it at
`9/4`; the code compares with the `int` quotient `5/2 = 2` and moves it to
`-11/4`. With `width = height = -4` a light body at rest at
`(width/2 + 1, 0) = (-1, 0)` lands at `(-5, -4)`, not at
`(-width/2 + 1, 0) = (3, 0)`. -/
theorem wrap_exact_half_counterexample :
    (resting_body : Body ℚ).mass < 1000 ∧
      integrate_bodies 1 5 5 ([resting_body] : List (Body ℚ)) =
        [⟨-11 / 4, 0, 0, 0, 0, 0, 1⟩] ∧
      wrap_axis_exact_half (euler_x 1 (resting_body : Body ℚ)) 5 = 9 / 4 ∧
      (integrate_body 1 5 5 (resting_body : Body ℚ)).x ≠
        wrap_axis_exact_half (euler_x 1 (resting_body : Body ℚ)) 5 ∧
      |euler_x 1 (resting_body : Body ℚ)| ≤ ((5 : Int) : ℚ) / 2 ∧
      (integrate_body 1 5 5 (resting_body : Body ℚ)).x ≠ euler_x 1 (resting_body : Body ℚ) ∧
      (resting_body_negative_extent : Body ℚ).mass < 1000 ∧
      (resting_body_negative_extent : Body ℚ).x = ((-4 : Int) : ℚ) / 2 + 1 ∧
      integrate_bodies 1 (-4) (-4) ([resting_body_negative_extent] : List (Body ℚ)) =
        [⟨-5, -4, 0, 0, 0, 0, 1⟩] ∧
      (integrate_body 1 (-4) (-4) (resting_body_negative_extent : Body ℚ)).x ≠
        -((-4 : Int) : ℚ) / 2 + 1 ∧
      (integrate_body 1 (-4) (-4) (resting_body_negative_extent : Body ℚ)).y ≠ 0 := by
  have t1 : Int.tdiv (-5) 2 = -2 := by decide
  have t2 : Int.tdiv 5 2 = 2 := by decide
  have t3 : Int.tdiv 4 2 = 2 := by decide
  have t4 : Int.tdiv (-4) 2 = -2 := by decide
  have a1 : |(9 / 4 : ℚ)| = 9 / 4 := abs_of_nonneg (by norm_num)
  refine ⟨?_, ?_, ?_, ?_, ?_, ?_, ?_, ?_, ?_, ?_, ?_⟩ <;>
    norm_num [resting_body, resting_body_negative_extent, integrate_bodies, integrate_body,
      wrap_axis, wrap_axis_exact_half, euler_x, t1, t2, t3, t4, a1]

/-- Claim C4, amended. For `int` extents `width` and `height` and a body of mass
below `1000`, with `x'`, `y'` the coordinates after the Euler update, the final x
is `x' + width` if `x' < -width/2`, else `x' - width` if `x' > width/2`, else
`x'`, where `-width/2` and `width/2` are the `int` quotients of C++ (truncated
toward zero), and likewise the final y with `height`. For an even extent these
thresholds are the exact halves. A body with `|x'|` at most the `int` quotient
`width/2` is not moved in x (likewise y). For `width >= -1` and `height >= -1`
(all non-negative extents among them) a body at `(width/2 + 1, 0)`, exact half,
with zero velocity and acceleration lands at `(-width/2 + 1, 0)`. -/
theorem integrate_bodies_wrap (dt : F) (width height : Int)
    (bodies : List (Body F)) (i : Nat) (b : Body F)
    (hb : bodies[i]? = some b) (hm : b.mass < 1000) :
    ∃ b' : Body F,
      (integrate_bodies dt width height bodies)[i]? = some b' ∧
      (euler_x dt b < ((Int.tdiv (-width) 2 : Int) : F) → b'.x = euler_x dt b + (width : F)) ∧
      (¬ euler_x dt b < ((Int.tdiv (-width) 2 : Int) : F) →
        euler_x dt b > ((Int.tdiv width 2 : Int) : F) → b'.x = euler_x dt b - (width : F)) ∧
      (¬ euler_x dt b < ((Int.tdiv (-width) 2 : Int) : F) →
        ¬ euler_x dt b > ((Int.tdiv width 2 : Int) : F) → b'.x = euler_x dt b) ∧
      (euler_y dt b < ((Int.tdiv (-height) 2 : Int) : F) → b'.y = euler_y dt b + (height : F)) ∧
      (¬ euler_y dt b < ((Int.tdiv (-height) 2 : Int) : F) →
        euler_y dt b > ((Int.tdiv height 2 : Int) : F) → b'.y = euler_y dt b - (height : F)) ∧
      (¬ euler_y dt b < ((Int.tdiv (-height) 2 : Int) : F) →
        ¬ euler_y dt b > ((Int.tdiv height 2 : Int) : F) → b'.y = euler_y dt b) ∧
      (2 ∣ width → ((Int.tdiv (-width) 2 : Int) : F) = -(width : F) / 2 ∧
        ((Int.tdiv width 2 : Int) : F) = (width : F) / 2) ∧
      (2 ∣ height → ((Int.tdiv (-height) 2 : Int) : F) = -(height : F) / 2 ∧
        ((Int.tdiv height 2 : Int) : F) = (height : F) / 2) ∧
      (|euler_x dt b| ≤ ((Int.tdiv width 2 : Int) : F) → b'.x = euler_x dt b) ∧
      (|euler_y dt b| ≤ ((Int.tdiv height 2 : Int) : F) → b'.y = euler_y dt b) ∧
      (-1 ≤ width → -1 ≤ height → b.x = (width : F) / 2 + 1 → b.y = 0 →
        b.velocity_x = 0 → b.velocity_y = 0 → b.acceleration_x = 0 → b.acceleration_y = 0 →
        b'.x = -(width : F) / 2 + 1 ∧ b'.y = 0) := by
  refine ⟨integrate_body dt width height b, ?_, ?_⟩
  · unfold integrate_bodies; rw [List.getElem?_map, hb]; rfl
  · rw [integrate_body_light dt width height b hm]
    have hx : (b.x + (b.velocity_x + b.acceleration_x * dt) * dt) = euler_x dt b := rfl
    have hy : (b.y + (b.velocity_y + b.acceleration_y * dt) * dt) = euler_y dt b := rfl
    simp only [hx, hy]
    refine ⟨?_, ?_, ?_, ?_, ?_, ?_, ?_, ?_, ?_, ?_, ?_⟩
    · intro h; unfold wrap_axis; rw [if_pos h]
    · intro h1 h2; unfold wrap_axis; rw [if_neg h1, if_pos h2]
    · intro h1 h2; unfold wrap_axis; rw [if_neg h1, if_neg h2]
    · intro h; unfold wrap_axis; rw [if_pos h]
    · intro h1 h2; unfold wrap_axis; rw [if_neg h1, if_pos h2]
    · intro h1 h2; unfold wrap_axis; rw [if_neg h1, if_neg h2]
    · intro h
      refine ⟨?_, tdiv_two_even width h⟩
      rw [tdiv_neg_two]; push_cast; rw [tdiv_two_even width h]; ring
    · intro h
      refine ⟨?_, tdiv_two_even height h⟩
      rw [tdiv_neg_two]; push_cast; rw [tdiv_two_even height h]; ring
    · exact wrap_axis_within _ _
    · exact wrap_axis_within _ _
    · intro hw hh h1 h2 h3 h4 h5 h6
      have ex : euler_x dt b = (width : F) / 2 + 1 := by
        unfold euler_x; rw [h1, h3, h5]; ring
      have ey : euler_y dt b = 0 := by
        unfold euler_y; rw [h2, h4, h6]; ring
      rw [ex, ey]
      exact ⟨(wrap_axis_example width hw).1, (wrap_axis_example height hh).2⟩

/-- For `width = 5` the body at rest at `x = 9/4` is moved to `9/4 - 5`. -/
theorem integrate_bodies_wrap_witness :
    ([resting_body] : List (Body ℚ))[0]? = some resting_body ∧
      (resting_body : Body ℚ).mass < 1000 ∧
      ∃ b' : Body ℚ,
        (integrate_bodies 1 5 5 ([resting_body] : List (Body ℚ)))[0]? = some b' ∧
        b'.x = euler_x 1 (resting_body : Body ℚ) - ((5 : Int) : ℚ) := by
  have hm : (resting_body : Body ℚ).mass < 1000 := by norm_num [resting_body]
  have t1 : Int.tdiv (-5) 2 = -2 := by decide
  have t2 : Int.tdiv 5 2 = 2 := by decide
  obtain ⟨b', h1, -, h2, -⟩ :=
    integrate_bodies_wrap (1 : ℚ) 5 5 [resting_body] 0 resting_body rfl hm
  refine ⟨rfl, hm, b', h1, h2 ?_ ?_⟩ <;> norm_num [euler_x, resting_body, t1, t2]

/-- Claim C6. For a collection `c` whose size equals the body count `s_n`,
packing `c` into a `BodiesSOA` and unpacking that batch straight back, as
`runGpuComputation` does, gives a collection of the same length in which the
body at every index has the position, velocity and mass of `c` at that index and
zero acceleration. -/
theorem pack_unpack_round_trip (s_n : Nat) (c : List (Body F)) (h : c.length = s_n) :
    (unpack_soa s_n (pack_soa s_n c) c).length = c.length ∧
      unpack_soa s_n (pack_soa s_n c) c =
        c.map (fun b =>
          { x := b.x, y := b.y, velocity_x := b.velocity_x, velocity_y := b.velocity_y,
            acceleration_x := 0, acceleration_y := 0, mass := b.mass }) := by
  subst h
  have e : unpack_soa c.length (pack_soa c.length c) c = c.map after_round_trip := by
    unfold unpack_soa
    rw [unpack_upto c c.length (le_refl _)]
    simp
  rw [e]
  exact ⟨List.length_map _ _, rfl⟩

/-- A two-body collection with stale accelerations, body count `2`. -/
theorem pack_unpack_round_trip_witness :
    ([light_body_stale, central_body] : List (Body ℚ)).length = 2 ∧
      unpack_soa 2 (pack_soa 2 ([light_body_stale, central_body] : List (Body ℚ)))
          [light_body_stale, central_body] =
        [light_body, central_body] :=
  ⟨rfl, (pack_unpack_round_trip 2 ([light_body_stale, central_body] : List (Body ℚ)) rfl).2⟩

/-- Claim C7. For a collection of exactly two bodies `A`, `B` with positive
masses, after `compute_forces` over the reals the magnitude of the acceleration
of `A` times the mass of `A` equals the magnitude of the acceleration of `B`
times the mass of `B`. -/
theorem two_body_reciprocity (G eps : ℝ) (A B : Body ℝ) (hA : 0 < A.mass) (hB : 0 < B.mass) :
    ∃ A' B' : Body ℝ,
      compute_forces Real.sqrt G eps [A, B] = [A', B'] ∧
      acceleration_magnitude Real.sqrt A' * A.mass =
        acceleration_magnitude Real.sqrt B' * B.mass := by
  refine ⟨_, _, compute_forces_pair Real.sqrt G eps A B, ?_⟩
  unfold acceleration_magnitude
  simp only []
  by_cases h : A.x = B.x ∧ A.y = B.y
  · have h' : B.x = A.x ∧ B.y = A.y := ⟨h.1.symm, h.2.symm⟩
    unfold pull_x pull_y
    rw [if_pos h, if_pos h, if_pos h', if_pos h']
    norm_num
  · have h' : ¬ (B.x = A.x ∧ B.y = A.y) := fun hh => h ⟨hh.1.symm, hh.2.symm⟩
    unfold pull_x pull_y
    rw [if_neg h, if_neg h, if_neg h', if_neg h']
    have hs : (A.x - B.x) ^ 2 + (A.y - B.y) ^ 2 + eps ^ 2 =
        (B.x - A.x) ^ 2 + (B.y - A.y) ^ 2 + eps ^ 2 := by ring
    rw [hs]
    generalize (1 / Real.sqrt ((B.x - A.x) ^ 2 + (B.y - A.y) ^ 2 + eps ^ 2)) ^ 3 = inv
    have e1 : Real.sqrt (((B.x - A.x) * (G * B.mass * inv)) ^ 2 +
        ((B.y - A.y) * (G * B.mass * inv)) ^ 2) =
        Real.sqrt (((B.x - A.x) * (G * inv)) ^ 2 + ((B.y - A.y) * (G * inv)) ^ 2) * B.mass := by
      rw [← sqrt_scaled _ _ _ _ (le_of_lt hB)]
      congr 1; ring
    have e2 : Real.sqrt (((A.x - B.x) * (G * A.mass * inv)) ^ 2 +
        ((A.y - B.y) * (G * A.mass * inv)) ^ 2) =
        Real.sqrt (((B.x - A.x) * (G * inv)) ^ 2 + ((B.y - A.y) * (G * inv)) ^ 2) * A.mass := by
      rw [← sqrt_scaled _ _ _ _ (le_of_lt hA)]
      congr 1; ring
    rw [e1, e2]
    ring

/-- The light body and the central body, `G = 1`, `eps = 1/10`. -/
theorem two_body_reciprocity_witness :
    0 < (light_body : Body ℝ).mass ∧ 0 < (central_body : Body ℝ).mass ∧
      ∃ A' B' : Body ℝ,
        compute_forces Real.sqrt 1 (1 / 10) [light_body, central_body] = [A', B'] ∧
        acceleration_magnitude Real.sqrt A' * (light_body : Body ℝ).mass =
          acceleration_magnitude Real.sqrt B' * (central_body : Body ℝ).mass :=
  have h1 : 0 < (light_body : Body ℝ).mass := by norm_num [light_body]
  have h2 : 0 < (central_body : Body ℝ).mass := by norm_num [central_body]
  ⟨h1, h2, two_body_reciprocity 1 (1 / 10) light_body central_body h1 h2⟩

/-- Claim C8. Two collections of equal length that agree at every index on
position, velocity and mass, and differ at most in their acceleration fields,
are sent by `runCpuComputation` to identical collections. -/
theorem runCpuComputation_ignores_entry_acceleration (sqrtF : F → F) (G eps dt : F)
    (width height : Int) (bodies bodies' : List (Body F))
    (h : List.Forall₂ same_state_but_acceleration bodies bodies') :
    runCpuComputation sqrtF G eps dt width height bodies =
      runCpuComputation sqrtF G eps dt width height bodies' := by
  unfold runCpuComputation
  rw [← compute_forces_clear sqrtF G eps bodies, ← compute_forces_clear sqrtF G eps bodies',
    map_clear_eq_of_forall₂ bodies bodies' h]

/-- The two-body system with and without stale accelerations in the light body. -/
theorem runCpuComputation_ignores_entry_acceleration_witness :
    List.Forall₂ same_state_but_acceleration
        ([light_body, central_body] : List (Body ℝ)) [light_body_stale, central_body] ∧
      runCpuComputation Real.sqrt 1 (1 / 10) (1 / 10) 1920 1080
          ([light_body, central_body] : List (Body ℝ)) =
        runCpuComputation Real.sqrt 1 (1 / 10) (1 / 10) 1920 1080
          [light_body_stale, central_body] :=
  have h : List.Forall₂ same_state_but_acceleration
      ([light_body, central_body] : List (Body ℝ)) [light_body_stale, central_body] :=
    List.Forall₂.cons ⟨rfl, rfl, rfl, rfl, rfl⟩
      (List.Forall₂.cons ⟨rfl, rfl, rfl, rfl, rfl⟩ List.Forall₂.nil)
  ⟨h, runCpuComputation_ignores_entry_acceleration Real.sqrt 1 (1 / 10) (1 / 10) 1920 1080
    [light_body, central_body] [light_body_stale, central_body] h⟩

/-- Claim C9. `runCpuComputation` returns a collection of the same length in
which the body at each index keeps its mass; `compute_forces` changes no
position, velocity or mass; `integrate_bodies` changes no acceleration or mass;
the empty collection is returned unchanged. -/
theorem runCpuComputation_frame (sqrtF : F → F) (G eps dt : F) (width height : Int)
    (bodies : List (Body F)) :
    (runCpuComputation sqrtF G eps dt width height bodies).length = bodies.length ∧
      (runCpuComputation sqrtF G eps dt width height bodies).map (fun b => b.mass) =
        bodies.map (fun b => b.mass) ∧
      (compute_forces sqrtF G eps bodies).map
          (fun b => (b.x, b.y, b.velocity_x, b.velocity_y, b.mass)) =
        bodies.map (fun b => (b.x, b.y, b.velocity_x, b.velocity_y, b.mass)) ∧
      (integrate_bodies dt width height bodies).map
          (fun b => (b.acceleration_x, b.acceleration_y, b.mass)) =
        bodies.map (fun b => (b.acceleration_x, b.acceleration_y, b.mass)) ∧
      runCpuComputation sqrtF G eps dt width height ([] : List (Body F)) = [] := by
  refine ⟨?_, ?_, ?_, ?_, ?_⟩
  · unfold runCpuComputation integrate_bodies
    rw [List.length_map, compute_forces_eq, List.length_map]
  · unfold runCpuComputation integrate_bodies
    rw [compute_forces_eq, List.map_map, List.map_map]
    apply List.map_congr_left
    intro b _
    simp only [Function.comp_apply]
    rw [integrate_body_mass]
  · rw [compute_forces_eq, List.map_map]
    rfl
  · unfold integrate_bodies
    rw [List.map_map]
    apply List.map_congr_left
    intro b _
    simp only [Function.comp_apply]
    rw [integrate_body_mass, (integrate_body_acceleration dt width height b).1,
      (integrate_body_acceleration dt width height b).2]
  · rfl

/-- Claim C10. `integrate_bodies` corrects each axis at most once. For
`width > 0` and a body of mass below `1000` whose Euler-updated coordinate `x'`
exceeds `width/2 + width` (exact half), the final x is exactly `x' - width`,
still greater than `width/2` and than the threshold the code compares with; when
`x' < -width/2 - width` the final x is `x' + width`, still below `-width/2` and
below the code's threshold. Likewise for y with `height > 0`. -/
theorem integrate_bodies_wraps_once (dt : F) (width height : Int)
    (bodies : List (Body F)) (i : Nat) (b : Body F)
    (hb : bodies[i]? = some b) (hm : b.mass < 1000) :
    ∃ b' : Body F,
      (integrate_bodies dt width height bodies)[i]? = some b' ∧
      (0 < width → euler_x dt b > (width : F) / 2 + (width : F) →
        b'.x = euler_x dt b - (width : F) ∧ b'.x > (width : F) / 2 ∧
          b'.x > ((Int.tdiv width 2 : Int) : F)) ∧
      (0 < width → euler_x dt b < -(width : F) / 2 - (width : F) →
        b'.x = euler_x dt b + (width : F) ∧ b'.x < -(width : F) / 2 ∧
          b'.x < ((Int.tdiv (-width) 2 : Int) : F)) ∧
      (0 < height → euler_y dt b > (height : F) / 2 + (height : F) →
        b'.y = euler_y dt b - (height : F) ∧ b'.y > (height : F) / 2 ∧
          b'.y > ((Int.tdiv height 2 : Int) : F)) ∧
      (0 < height → euler_y dt b < -(height : F) / 2 - (height : F) →
        b'.y = euler_y dt b + (height : F) ∧ b'.y < -(height : F) / 2 ∧
          b'.y < ((Int.tdiv (-height) 2 : Int) : F)) := by
  have key : ∀ (p : F) (e : Int), 0 < e →
      (p > (e : F) / 2 + (e : F) →
        wrap_axis p e = p - (e : F) ∧ wrap_axis p e > (e : F) / 2 ∧
          wrap_axis p e > ((Int.tdiv e 2 : Int) : F)) ∧
      (p < -(e : F) / 2 - (e : F) →
        wrap_axis p e = p + (e : F) ∧ wrap_axis p e < -(e : F) / 2 ∧
          wrap_axis p e < ((Int.tdiv (-e) 2 : Int) : F)) := by
    intro p e he
    have hle : ((Int.tdiv e 2 : Int) : F) ≤ (e : F) / 2 := tdiv_two_le_half e (le_of_lt he)
    have h0 : (0 : F) ≤ ((Int.tdiv e 2 : Int) : F) := by
      exact_mod_cast Int.tdiv_nonneg (le_of_lt he) (by decide)
    have heF : (0 : F) < (e : F) := by exact_mod_cast he
    have hneg : ((Int.tdiv (-e) 2 : Int) : F) = -((Int.tdiv e 2 : Int) : F) := by
      rw [tdiv_neg_two]; push_cast; rfl
    constructor
    · intro hp
      have hw : wrap_axis p e = p - (e : F) := by
        unfold wrap_axis
        rw [hneg, if_neg (by linarith), if_pos (by linarith)]
      rw [hw]
      exact ⟨rfl, by linarith, by linarith⟩
    · intro hp
      have hw : wrap_axis p e = p + (e : F) := by
        unfold wrap_axis
        rw [hneg, if_pos (by linarith)]
      rw [hw, hneg]
      exact ⟨rfl, by linarith, by linarith⟩
  refine ⟨integrate_body dt width height b, ?_, ?_⟩
  · unfold integrate_bodies; rw [List.getElem?_map, hb]; rfl
  · rw [integrate_body_light dt width height b hm]
    exact ⟨fun hw => (key _ width hw).1, fun hw => (key _ width hw).2,
      fun hh => (key _ height hh).1, fun hh => (key _ height hh).2⟩

/-- For `width = 4` the body at rest at `x = 11` ends at `7`, beyond `width/2`. -/
theorem integrate_bodies_wraps_once_witness :
    ([far_body] : List (Body ℚ))[0]? = some far_body ∧
      (far_body : Body ℚ).mass < 1000 ∧
      ∃ b' : Body ℚ,
        (integrate_bodies 1 4 4 ([far_body] : List (Body ℚ)))[0]? = some b' ∧
        b'.x = euler_x 1 (far_body : Body ℚ) - ((4 : Int) : ℚ) ∧
        b'.x > ((4 : Int) : ℚ) / 2 := by
  have hm : (far_body : Body ℚ).mass < 1000 := by norm_num [far_body]
  obtain ⟨b', h1, h2, -⟩ := integrate_bodies_wraps_once (1 : ℚ) 4 4 [far_body] 0 far_body rfl hm
  have h3 := h2 (by decide) (by norm_num [euler_x, far_body])
  exact ⟨rfl, hm, b', h1, h3.1, h3.2.1⟩

/-- Claim C11. Over the reals with the real square root and `eps` non-zero,
`compute_forces`, which skips a pair when the two positions are equal
(`Body::operator==`), gives the same collection, accelerations included, as the
variant that skips a pair only when the two indices are equal. With `eps`
non-zero every divisor `sqrt(dx² + dy² + eps²)` of the variant is positive, so
no division by zero is involved, and a body at the same position as
`current_body` adds a zero term: `attract` leaves `current_body` as it is. -/
theorem skip_by_position_eq_skip_by_index (G eps : ℝ) (heps : eps ≠ 0)
    (bodies : List (Body ℝ)) :
    compute_forces Real.sqrt G eps bodies = compute_forces_by_index Real.sqrt G eps bodies ∧
      (∀ dx dy : ℝ, 0 < Real.sqrt (dx ^ 2 + dy ^ 2 + eps ^ 2)) ∧
      (∀ a b : Body ℝ, a.x = b.x ∧ a.y = b.y → attract Real.sqrt G eps a b = a) := by
  refine ⟨(compute_forces_by_index_eq Real.sqrt G eps bodies).symm,
    sqrt_softened_pos eps heps, ?_⟩
  intro a b h
  rw [attract_eq, (raw_pull_same_position Real.sqrt G eps a.x a.y b h).1,
    (raw_pull_same_position Real.sqrt G eps a.x a.y b h).2, add_zero, add_zero]

/-- Three bodies, two of them distinct at the same position, `eps = 1/10`. -/
theorem skip_by_position_eq_skip_by_index_witness :
    (1 / 10 : ℝ) ≠ 0 ∧
      compute_forces Real.sqrt 1 (1 / 10) (coincident_system : List (Body ℝ)) =
        compute_forces_by_index Real.sqrt 1 (1 / 10) coincident_system :=
  ⟨by norm_num,
    (skip_by_position_eq_skip_by_index 1 (1 / 10) (by norm_num) coincident_system).1⟩

end NBody
